import Mathlib

/-!
Verification of the strain-rosette computation core of
`strain_rosette_web_ver3.py`: the linear solver `calculate_strains` and the
Mohr-circle analysis `plot_mohrs_circle`, embedded over the real numbers.
Machine floats are modelled by exact reals; `np.linalg.solve` is modelled as
an `Option`-valued solver that fails exactly on a singular matrix, which is
the real-arithmetic content of LAPACK's partial-pivoting LU failure.
-/

open Real Matrix

noncomputable section

/-- np.radians: convert degrees to radians. -/
def radians (d : ℝ) : ℝ := d * π / 180

/-- np.degrees: convert radians to degrees. -/
def degrees (r : ℝ) : ℝ := r * 180 / π

/-- np.arctan2 y x: the two-argument arctangent, by the standard case split
on the signs of the arguments; in particular arctan2 0 0 = 0. -/
def arctan2 (y x : ℝ) : ℝ :=
  if 0 < x then arctan (y / x)
  else if x < 0 then
    (if 0 ≤ y then arctan (y / x) + π else arctan (y / x) - π)
  else
    (if 0 < y then π / 2 else if y < 0 then -(π / 2) else 0)

/-- One row of the coefficient matrix built by `calculate_strains` for an
angle θ already in radians: [cos²θ, sin²θ, sinθ·cosθ]. -/
def rosetteRow (θ : ℝ) : Fin 3 → ℝ :=
  ![Real.cos θ ^ 2, Real.sin θ ^ 2, Real.sin θ * Real.cos θ]

/-- The 3×3 coefficient matrix A of `calculate_strains`: the three angles are
given in degrees, converted to radians, and row i is `rosetteRow θᵢ`. -/
def rosetteMatrix (ta tb tc : ℝ) : Matrix (Fin 3) (Fin 3) ℝ :=
  Matrix.of ![rosetteRow (radians ta), rosetteRow (radians tb), rosetteRow (radians tc)]

/-- np.linalg.solve on a 3×3 real system: fails (LinAlgError, modelled as
`none`) exactly when the matrix is singular, otherwise returns the unique
solution A⁻¹ ⬝ B. -/
def linalg_solve (A : Matrix (Fin 3) (Fin 3) ℝ) (B : Fin 3 → ℝ) :
    Option (Fin 3 → ℝ) :=
  if A.det = 0 then none else some (A⁻¹ *ᵥ B)

/-- `calculate_strains` from the source: build A from the three angles
(degrees) and B from the three measured strains, and call np.linalg.solve. -/
def calculate_strains (ta tb tc ea eb ec : ℝ) : Option (Fin 3 → ℝ) :=
  linalg_solve (rosetteMatrix ta tb tc) ![ea, eb, ec]

/-- The scalar quantities computed by `plot_mohrs_circle` and returned to the
caller (the plotting side effects are captured separately in `MohrPlot`). -/
structure MohrResult where
  center : ℝ
  radius : ℝ
  eps1 : ℝ
  eps2 : ℝ
  theta_p_deg : ℝ

/-- The numeric part of `plot_mohrs_circle`: center, radius, principal
strains and principal angle, exactly as computed in the source. -/
def plot_mohrs_circle (eps_x eps_y gamma_xy : ℝ) : MohrResult :=
  let center := (eps_x + eps_y) / 2
  let radius := Real.sqrt (((eps_x - eps_y) / 2) ^ 2 + (gamma_xy / 2) ^ 2)
  let eps1 := center + radius
  let eps2 := center - radius
  let theta_p_rad := 0.5 * arctan2 gamma_xy (eps_x - eps_y)
  let theta_p_deg := degrees theta_p_rad
  ⟨center, radius, eps1, eps2, theta_p_deg⟩

/-- The geometric primitives drawn by `plot_mohrs_circle`: the circle
(center point and radius), the dashed diametral segment from
(eps_x, −γ/2) to (eps_y, γ/2), and the marker points. -/
structure MohrPlot where
  circleCenter : ℝ × ℝ
  circleRadius : ℝ
  segStart : ℝ × ℝ
  segEnd : ℝ × ℝ
  centerPt : ℝ × ℝ
  eps1Pt : ℝ × ℝ
  eps2Pt : ℝ × ℝ

/-- The plotting calls of `plot_mohrs_circle` as declarative geometry:
plt.Circle((center, 0), radius); ax.plot([eps_x, eps_y], [-γ/2, γ/2]);
ax.plot(center, 0); ax.plot(eps1, 0); ax.plot(eps2, 0). -/
def mohr_plot (eps_x eps_y gamma_xy : ℝ) : MohrPlot :=
  let r := plot_mohrs_circle eps_x eps_y gamma_xy
  { circleCenter := (r.center, 0)
    circleRadius := r.radius
    segStart := (eps_x, -gamma_xy / 2)
    segEnd := (eps_y, gamma_xy / 2)
    centerPt := (r.center, 0)
    eps1Pt := (r.eps1, 0)
    eps2Pt := (r.eps2, 0) }

/-- Euclidean distance between two points of the plot plane. -/
def planarDist (p q : ℝ × ℝ) : ℝ :=
  Real.sqrt ((p.1 - q.1) ^ 2 + (p.2 - q.2) ^ 2)

/-- The strain-transformation formula: the normal strain measured by a gauge
at angle θ (radians) in the state (eps_x, eps_y, gamma_xy). -/
def strain_at (ex ey g θ : ℝ) : ℝ :=
  ex * Real.cos θ ^ 2 + ey * Real.sin θ ^ 2 + g * Real.sin θ * Real.cos θ

end

/-- The dot product of a rosette row with the unknown vector is the
strain-transformation right-hand side. -/
lemma rosetteRow_dotProduct (θ : ℝ) (x : Fin 3 → ℝ) :
    rosetteRow θ ⬝ᵥ x =
      x 0 * Real.cos θ ^ 2 + x 1 * Real.sin θ ^ 2 +
        x 2 * Real.sin θ * Real.cos θ := by
  simp [rosetteRow, Matrix.dotProduct, Fin.sum_univ_three]
  ring

/-- Multiplying the rosette matrix by a strain state evaluates the
strain-transformation formula at the three (radian) angles. -/
lemma rosetteMatrix_mulVec (ta tb tc ex ey g : ℝ) :
    rosetteMatrix ta tb tc *ᵥ ![ex, ey, g] =
      ![strain_at ex ey g (radians ta), strain_at ex ey g (radians tb),
        strain_at ex ey g (radians tc)] := by
  funext i
  fin_cases i <;>
    simp [rosetteMatrix, rosetteRow, strain_at, Matrix.mulVec,
      Matrix.dotProduct, Fin.sum_univ_three] <;>
    ring

/-- When the rosette matrix is nonsingular, `calculate_strains` succeeds and
its output solves the linear system. -/
lemma calculate_strains_solves (ta tb tc ea eb ec : ℝ)
    (h : (rosetteMatrix ta tb tc).det ≠ 0) :
    calculate_strains ta tb tc ea eb ec =
      some ((rosetteMatrix ta tb tc)⁻¹ *ᵥ ![ea, eb, ec]) ∧
    rosetteMatrix ta tb tc *ᵥ ((rosetteMatrix ta tb tc)⁻¹ *ᵥ ![ea, eb, ec]) =
      ![ea, eb, ec] := by
  constructor
  · simp [calculate_strains, linalg_solve, h]
  · rw [Matrix.mulVec_mulVec,
      Matrix.mul_nonsing_inv _ (isUnit_iff_ne_zero.mpr h), Matrix.one_mulVec]

/-- Uniqueness: when the rosette matrix is nonsingular, any solution of the
system is the value `calculate_strains` returns. -/
lemma calculate_strains_unique (ta tb tc ea eb ec : ℝ) (v : Fin 3 → ℝ)
    (h : (rosetteMatrix ta tb tc).det ≠ 0)
    (hv : rosetteMatrix ta tb tc *ᵥ v = ![ea, eb, ec]) :
    calculate_strains ta tb tc ea eb ec = some v := by
  have hinv : (rosetteMatrix ta tb tc)⁻¹ *ᵥ ![ea, eb, ec] = v := by
    rw [← hv, Matrix.mulVec_mulVec,
      Matrix.nonsing_inv_mul _ (isUnit_iff_ne_zero.mpr h), Matrix.one_mulVec]
  simp [calculate_strains, linalg_solve, h, hinv]

/-- radians 0 = 0. -/
lemma radians_zero : radians 0 = 0 := by
  simp [radians]

/-- radians 45 = π/4. -/
lemma radians_45 : radians 45 = π / 4 := by
  unfold radians
  ring

/-- radians 90 = π/2. -/
lemma radians_90 : radians 90 = π / 2 := by
  unfold radians
  ring

/-- The rosette row at 0°. -/
lemma rosetteRow_deg0 : rosetteRow (radians 0) = ![1, 0, 0] := by
  funext i
  fin_cases i <;> simp [rosetteRow, radians_zero]

/-- The rosette row at 45°. -/
lemma rosetteRow_deg45 : rosetteRow (radians 45) = ![1 / 2, 1 / 2, 1 / 2] := by
  have h2 : Real.sqrt 2 ^ 2 = 2 := Real.sq_sqrt (by norm_num)
  funext i
  fin_cases i <;>
    simp [rosetteRow, radians_45, Real.cos_pi_div_four, Real.sin_pi_div_four] <;>
    nlinarith [h2]

/-- The rosette row at 90°. -/
lemma rosetteRow_deg90 : rosetteRow (radians 90) = ![0, 1, 0] := by
  funext i
  fin_cases i <;> simp [rosetteRow, radians_90]

/-- The concrete rosette matrix for the canonical 0°/45°/90° rosette. -/
lemma rosetteMatrix_0_45_90 :
    rosetteMatrix 0 45 90 =
      Matrix.of ![![1, 0, 0], ![1 / 2, 1 / 2, 1 / 2], ![0, 1, 0]] := by
  unfold rosetteMatrix
  rw [rosetteRow_deg0, rosetteRow_deg45, rosetteRow_deg90]

/-- The canonical 0°/45°/90° rosette matrix has determinant −1/2. -/
lemma det_rosette_0_45_90 : (rosetteMatrix 0 45 90).det = -(1 / 2) := by
  rw [rosetteMatrix_0_45_90, Matrix.det_fin_three]
  norm_num

/-- C1: whenever the rosette matrix is nonsingular, `calculate_strains`
returns a vector x = (eps_x, eps_y, gamma_xy) with A ⬝ x = B; row-wise, each
measured strain εᵢ equals eps_x·cos²θᵢ + eps_y·sin²θᵢ + γ·sinθᵢ·cosθᵢ with
θᵢ the angle converted to radians. -/
theorem C1_solve_satisfies_system (ta tb tc ea eb ec : ℝ)
    (h : (rosetteMatrix ta tb tc).det ≠ 0) :
    ∃ x, calculate_strains ta tb tc ea eb ec = some x ∧
      rosetteMatrix ta tb tc *ᵥ x = ![ea, eb, ec] ∧
      ea = x 0 * Real.cos (radians ta) ^ 2 + x 1 * Real.sin (radians ta) ^ 2 +
            x 2 * Real.sin (radians ta) * Real.cos (radians ta) ∧
      eb = x 0 * Real.cos (radians tb) ^ 2 + x 1 * Real.sin (radians tb) ^ 2 +
            x 2 * Real.sin (radians tb) * Real.cos (radians tb) ∧
      ec = x 0 * Real.cos (radians tc) ^ 2 + x 1 * Real.sin (radians tc) ^ 2 +
            x 2 * Real.sin (radians tc) * Real.cos (radians tc) := by
  obtain ⟨hsome, hsol⟩ := calculate_strains_solves ta tb tc ea eb ec h
  refine ⟨_, hsome, hsol, ?_, ?_, ?_⟩
  · have h0 := congrFun hsol 0
    rw [show (rosetteMatrix ta tb tc *ᵥ _) 0 = rosetteRow (radians ta) ⬝ᵥ _ from
        rfl, rosetteRow_dotProduct] at h0
    simpa using h0.symm
  · have h1 := congrFun hsol 1
    rw [show (rosetteMatrix ta tb tc *ᵥ _) 1 = rosetteRow (radians tb) ⬝ᵥ _ from
        rfl, rosetteRow_dotProduct] at h1
    simpa using h1.symm
  · have h2 := congrFun hsol 2
    rw [show (rosetteMatrix ta tb tc *ᵥ _) 2 = rosetteRow (radians tc) ⬝ᵥ _ from
        rfl, rosetteRow_dotProduct] at h2
    simpa using h2.symm

/-- Witness for C1 at the canonical rosette 0°/45°/90° with strains 1, 2, 3. -/
theorem C1_witness :
    ∃ x, calculate_strains 0 45 90 1 2 3 = some x ∧
      rosetteMatrix 0 45 90 *ᵥ x = ![1, 2, 3] ∧
      (1 : ℝ) = x 0 * Real.cos (radians 0) ^ 2 + x 1 * Real.sin (radians 0) ^ 2 +
            x 2 * Real.sin (radians 0) * Real.cos (radians 0) ∧
      (2 : ℝ) = x 0 * Real.cos (radians 45) ^ 2 + x 1 * Real.sin (radians 45) ^ 2 +
            x 2 * Real.sin (radians 45) * Real.cos (radians 45) ∧
      (3 : ℝ) = x 0 * Real.cos (radians 90) ^ 2 + x 1 * Real.sin (radians 90) ^ 2 +
            x 2 * Real.sin (radians 90) * Real.cos (radians 90) :=
  C1_solve_satisfies_system 0 45 90 1 2 3
    (by rw [det_rosette_0_45_90]; norm_num)

/-- cos², sin² and sin·cos are invariant under shifting the angle by any
integer multiple of π. -/
lemma trig_sq_add_int_mul_pi (x : ℝ) (k : ℤ) :
    Real.cos (x + k * π) ^ 2 = Real.cos x ^ 2 ∧
    Real.sin (x + k * π) ^ 2 = Real.sin x ^ 2 ∧
    Real.sin (x + k * π) * Real.cos (x + k * π) =
      Real.sin x * Real.cos x := by
  rcases Int.even_or_odd k with ⟨m, hm⟩ | ⟨m, hm⟩
  · have hx : x + (k : ℝ) * π = x + m * (2 * π) := by
      subst hm
      push_cast
      ring
    rw [hx, Real.cos_add_int_mul_two_pi, Real.sin_add_int_mul_two_pi]
    exact ⟨rfl, rfl, rfl⟩
  · have hx : x + (k : ℝ) * π = x + π + m * (2 * π) := by
      subst hm
      push_cast
      ring
    rw [hx, Real.cos_add_int_mul_two_pi, Real.sin_add_int_mul_two_pi,
      Real.cos_add_pi, Real.sin_add_pi]
    refine ⟨by ring, by ring, by ring⟩

/-- The rosette row is π-periodic in the radian angle. -/
lemma rosetteRow_add_int_mul_pi (x : ℝ) (k : ℤ) :
    rosetteRow (x + k * π) = rosetteRow x := by
  obtain ⟨hc, hs, hsc⟩ := trig_sq_add_int_mul_pi x k
  funext i
  fin_cases i <;> simp [rosetteRow, hc, hs, hsc]

/-- Adding an integer multiple of 180 degrees adds that multiple of π to the
radian angle. -/
lemma radians_add_180_int (t : ℝ) (k : ℤ) :
    radians (t + 180 * k) = radians t + k * π := by
  unfold radians
  ring

/-- The rosette row is 180°-periodic in the degree angle. -/
lemma rosetteRow_radians_add_180 (t : ℝ) :
    rosetteRow (radians (t + 180)) = rosetteRow (radians t) := by
  have h : t + 180 = t + 180 * ((1 : ℤ) : ℝ) := by
    norm_num
  rw [h, radians_add_180_int, rosetteRow_add_int_mul_pi]

/-- Two angles equal modulo 180° give equal rosette rows. -/
lemma rosetteRow_congr_mod_180 (s t : ℝ) (k : ℤ) (h : t = s + 180 * k) :
    rosetteRow (radians t) = rosetteRow (radians s) := by
  rw [h, radians_add_180_int, rosetteRow_add_int_mul_pi]

/-- C3: `calculate_strains` fails (returns none, modelling LinAlgError) on
every singular coefficient matrix — in particular whenever two of the three
angles are equal modulo 180°, such as 0°,0°,0° — and never fails when the
matrix is nonsingular. -/
theorem C3_singular_fails (ta tb tc ea eb ec : ℝ) :
    ((rosetteMatrix ta tb tc).det = 0 →
      calculate_strains ta tb tc ea eb ec = none) ∧
    (((∃ k : ℤ, tb = ta + 180 * k) ∨ (∃ k : ℤ, tc = ta + 180 * k) ∨
        (∃ k : ℤ, tc = tb + 180 * k)) →
      calculate_strains ta tb tc ea eb ec = none) ∧
    ((rosetteMatrix ta tb tc).det ≠ 0 →
      ∃ x, calculate_strains ta tb tc ea eb ec = some x) := by
  have hnone : (rosetteMatrix ta tb tc).det = 0 →
      calculate_strains ta tb tc ea eb ec = none := by
    intro h
    simp [calculate_strains, linalg_solve, h]
  refine ⟨hnone, ?_, ?_⟩
  · rintro (⟨k, hk⟩ | ⟨k, hk⟩ | ⟨k, hk⟩) <;> apply hnone
    · exact Matrix.det_zero_of_row_eq (M := rosetteMatrix ta tb tc)
        (i := 1) (j := 0) (by decide)
        (rosetteRow_congr_mod_180 ta tb k hk)
    · exact Matrix.det_zero_of_row_eq (M := rosetteMatrix ta tb tc)
        (i := 2) (j := 0) (by decide)
        (rosetteRow_congr_mod_180 ta tc k hk)
    · exact Matrix.det_zero_of_row_eq (M := rosetteMatrix ta tb tc)
        (i := 2) (j := 1) (by decide)
        (rosetteRow_congr_mod_180 tb tc k hk)
  · intro h
    exact ⟨_, (calculate_strains_solves ta tb tc ea eb ec h).1⟩

/-- Witness for C3: the degenerate rosette 0°,0°,0° fails, and the canonical
rosette 0°,45°,90° succeeds. -/
theorem C3_witness :
    calculate_strains 0 0 0 1 2 3 = none ∧
    ∃ x, calculate_strains 0 45 90 1 2 3 = some x := by
  constructor
  · exact (C3_singular_fails 0 0 0 1 2 3).2.1 (Or.inl ⟨0, by norm_num⟩)
  · exact (C3_singular_fails 0 45 90 1 2 3).2.2
      (by rw [det_rosette_0_45_90]; norm_num)

/-- C9: adding 180° to any one of the three angles leaves the coefficient
matrix unchanged (its rows are π-periodic in the radian angle), hence
`calculate_strains` returns the identical result. -/
theorem C9_angle_periodicity (ta tb tc ea eb ec : ℝ) :
    (rosetteMatrix (ta + 180) tb tc = rosetteMatrix ta tb tc ∧
      calculate_strains (ta + 180) tb tc ea eb ec =
        calculate_strains ta tb tc ea eb ec) ∧
    (rosetteMatrix ta (tb + 180) tc = rosetteMatrix ta tb tc ∧
      calculate_strains ta (tb + 180) tc ea eb ec =
        calculate_strains ta tb tc ea eb ec) ∧
    (rosetteMatrix ta tb (tc + 180) = rosetteMatrix ta tb tc ∧
      calculate_strains ta tb (tc + 180) ea eb ec =
        calculate_strains ta tb tc ea eb ec) := by
  have ha : rosetteMatrix (ta + 180) tb tc = rosetteMatrix ta tb tc := by
    unfold rosetteMatrix
    rw [rosetteRow_radians_add_180]
  have hb : rosetteMatrix ta (tb + 180) tc = rosetteMatrix ta tb tc := by
    unfold rosetteMatrix
    rw [rosetteRow_radians_add_180]
  have hc : rosetteMatrix ta tb (tc + 180) = rosetteMatrix ta tb tc := by
    unfold rosetteMatrix
    rw [rosetteRow_radians_add_180]
  refine ⟨⟨ha, ?_⟩, ⟨hb, ?_⟩, ⟨hc, ?_⟩⟩ <;>
    simp only [calculate_strains, ha, hb, hc]

/-- C4: round-trip — synthesizing the three readings at 0°, 45°, 90° from a
strain state with the strain-transformation formula and feeding them to
`calculate_strains` recovers exactly the original state. -/
theorem C4_roundtrip (ex ey g : ℝ) :
    calculate_strains 0 45 90
      (strain_at ex ey g (radians 0)) (strain_at ex ey g (radians 45))
      (strain_at ex ey g (radians 90)) = some ![ex, ey, g] := by
  apply calculate_strains_unique
  · rw [det_rosette_0_45_90]
    norm_num
  · exact rosetteMatrix_mulVec 0 45 90 ex ey g

/-- Reversing the order of the three readings turns the rosette matrix into
a row permutation of the original by the transposition of rows 0 and 2. -/
lemma rosetteMatrix_swap (ta tb tc : ℝ) :
    rosetteMatrix tc tb ta =
      (rosetteMatrix ta tb tc).submatrix (Equiv.swap (0 : Fin 3) 2) id := by
  funext i j
  fin_cases i <;>
    simp [rosetteMatrix, Equiv.swap_apply_def, Fin.ext_iff]

/-- C7: swapping readings A and C (feeding the angle/strain pairs to the
solver in reversed order) yields the same recovered strain state whenever
the coefficient matrix is nonsingular. -/
theorem C7_swap_AC (ta tb tc ea eb ec : ℝ)
    (h : (rosetteMatrix ta tb tc).det ≠ 0) :
    calculate_strains tc tb ta ec eb ea =
      calculate_strains ta tb tc ea eb ec := by
  obtain ⟨hsome, hsol⟩ := calculate_strains_solves ta tb tc ea eb ec h
  set x := (rosetteMatrix ta tb tc)⁻¹ *ᵥ ![ea, eb, ec] with hx
  have hdet' : (rosetteMatrix tc tb ta).det ≠ 0 := by
    rw [rosetteMatrix_swap, Matrix.det_permute]
    rw [Equiv.Perm.sign_swap (by decide)]
    simpa using h
  have hcomp : ∀ i : Fin 3,
      (rosetteMatrix tc tb ta *ᵥ x) i =
        (rosetteMatrix ta tb tc *ᵥ x) (Equiv.swap (0 : Fin 3) 2 i) := by
    intro i
    rw [rosetteMatrix_swap]
    rfl
  have hsol' : rosetteMatrix tc tb ta *ᵥ x = ![ec, eb, ea] := by
    funext i
    rw [hcomp, hsol]
    fin_cases i <;> simp [Equiv.swap_apply_def, Fin.ext_iff]
  rw [hsome, calculate_strains_unique tc tb ta ec eb ea x hdet' hsol']

/-- Witness for C7 at the canonical rosette with strains 1, 2, 3. -/
theorem C7_witness :
    calculate_strains 90 45 0 3 2 1 = calculate_strains 0 45 90 1 2 3 :=
  C7_swap_AC 0 45 90 1 2 3 (by rw [det_rosette_0_45_90]; norm_num)

/-- Projection: the center computed by `plot_mohrs_circle`. -/
lemma plot_center (ex ey g : ℝ) :
    (plot_mohrs_circle ex ey g).center = (ex + ey) / 2 := rfl

/-- Projection: the radius computed by `plot_mohrs_circle`. -/
lemma plot_radius (ex ey g : ℝ) :
    (plot_mohrs_circle ex ey g).radius =
      Real.sqrt (((ex - ey) / 2) ^ 2 + (g / 2) ^ 2) := rfl

/-- Projection: the first principal strain computed by `plot_mohrs_circle`. -/
lemma plot_eps1 (ex ey g : ℝ) :
    (plot_mohrs_circle ex ey g).eps1 =
      (ex + ey) / 2 + Real.sqrt (((ex - ey) / 2) ^ 2 + (g / 2) ^ 2) := rfl

/-- Projection: the second principal strain computed by `plot_mohrs_circle`. -/
lemma plot_eps2 (ex ey g : ℝ) :
    (plot_mohrs_circle ex ey g).eps2 =
      (ex + ey) / 2 - Real.sqrt (((ex - ey) / 2) ^ 2 + (g / 2) ^ 2) := rfl

/-- Projection: the principal angle computed by `plot_mohrs_circle`. -/
lemma plot_theta (ex ey g : ℝ) :
    (plot_mohrs_circle ex ey g).theta_p_deg =
      degrees (0.5 * arctan2 g (ex - ey)) := rfl

/-- The two-argument arctangent takes its values in the interval (−π, π]. -/
lemma arctan2_bounds (y x : ℝ) : -π < arctan2 y x ∧ arctan2 y x ≤ π := by
  have hpi := Real.pi_pos
  have hlt := Real.arctan_lt_pi_div_two (y / x)
  have hgt := Real.neg_pi_div_two_lt_arctan (y / x)
  unfold arctan2
  split_ifs with h1 h2 h3 h4 h5
  · constructor <;> linarith
  · have hyx : y / x ≤ 0 := div_nonpos_of_nonneg_of_nonpos h3 (le_of_lt h2)
    have : arctan (y / x) ≤ 0 := by
      have hm := Real.arctan_strictMono.monotone hyx
      rwa [Real.arctan_zero] at hm
    constructor <;> linarith
  · have hyx : 0 < y / x := div_pos_of_neg_of_neg (lt_of_not_le h3) h2
    have : 0 < arctan (y / x) := by
      have hm := Real.arctan_strictMono hyx
      rwa [Real.arctan_zero] at hm
    constructor <;> linarith
  · constructor <;> linarith
  · constructor <;> linarith
  · constructor <;> linarith

/-- C6: invariants of the Mohr analysis — eps1 ≥ eps2, radius ≥ 0 with
radius = 0 exactly for the isotropic state, center = (eps1+eps2)/2, and the
principal angle lies in (−90°, 90°]. -/
theorem C6_analyze_invariants (ex ey g : ℝ) :
    (plot_mohrs_circle ex ey g).eps2 ≤ (plot_mohrs_circle ex ey g).eps1 ∧
    0 ≤ (plot_mohrs_circle ex ey g).radius ∧
    ((plot_mohrs_circle ex ey g).radius = 0 ↔ ex = ey ∧ g = 0) ∧
    (plot_mohrs_circle ex ey g).center =
      ((plot_mohrs_circle ex ey g).eps1 +
        (plot_mohrs_circle ex ey g).eps2) / 2 ∧
    -90 < (plot_mohrs_circle ex ey g).theta_p_deg ∧
    (plot_mohrs_circle ex ey g).theta_p_deg ≤ 90 := by
  have hr0 : 0 ≤ Real.sqrt (((ex - ey) / 2) ^ 2 + (g / 2) ^ 2) :=
    Real.sqrt_nonneg _
  obtain ⟨ht1, ht2⟩ := arctan2_bounds g (ex - ey)
  have hpi := Real.pi_pos
  refine ⟨?_, ?_, ?_, ?_, ?_, ?_⟩
  · rw [plot_eps1, plot_eps2]
    linarith
  · rw [plot_radius]
    exact hr0
  · rw [plot_radius]
    constructor
    · intro h
      have hle : ((ex - ey) / 2) ^ 2 + (g / 2) ^ 2 ≤ 0 :=
        Real.sqrt_eq_zero'.mp h
      have h1 : ((ex - ey) / 2) ^ 2 = 0 :=
        le_antisymm (by nlinarith [sq_nonneg (g / 2)]) (sq_nonneg _)
      have h2 : (g / 2) ^ 2 = 0 :=
        le_antisymm (by nlinarith [sq_nonneg ((ex - ey) / 2)]) (sq_nonneg _)
      have h1' := sq_eq_zero_iff.mp h1
      have h2' := sq_eq_zero_iff.mp h2
      constructor <;> linarith
    · rintro ⟨rfl, rfl⟩
      norm_num
  · rw [plot_center, plot_eps1, plot_eps2]
    ring
  · rw [plot_theta]
    unfold degrees
    rw [lt_div_iff₀ hpi]
    linarith
  · rw [plot_theta]
    unfold degrees
    rw [div_le_iff₀ hpi]
    linarith

/-- When the second argument is positive, arctan2 is the plain arctangent of
the ratio. -/
lemma arctan2_of_pos (y x : ℝ) (hx : 0 < x) :
    arctan2 y x = arctan (y / x) := by
  unfold arctan2
  rw [if_pos hx]

/-- Numeric bounds for the textbook principal angle: degrees(0.5·atan2(200,
1200)) lies strictly between 0° and 5° (its value is ≈ 4.73°). -/
lemma theta_textbook_bounds :
    0 < degrees (0.5 * arctan2 200 1200) ∧
    degrees (0.5 * arctan2 200 1200) < 5 := by
  rw [arctan2_of_pos 200 1200 (by norm_num),
    show (200 : ℝ) / 1200 = 1 / 6 by norm_num]
  have ha0 : 0 < arctan (1 / 6 : ℝ) := by
    have hm := Real.arctan_strictMono (show (0 : ℝ) < 1 / 6 by norm_num)
    rwa [Real.arctan_zero] at hm
  have ha1 : arctan (1 / 6 : ℝ) < 1 / 6 := by
    have h2 := Real.arctan_lt_pi_div_two (1 / 6 : ℝ)
    have hlt := Real.lt_tan ha0 h2
    rwa [Real.tan_arctan] at hlt
  have hpi3 := Real.pi_gt_three
  have hpi := Real.pi_pos
  unfold degrees
  constructor
  · positivity
  · rw [div_lt_iff₀ hpi]
    nlinarith

/-- C5 counterexample: in the textbook case the claimed value ≈ 9.46° for
theta_p_deg is wrong — the code computes degrees(0.5·atan2(200,1200)) ≈
4.73°, which is below 5° and more than 0.5° away from 9.46°. -/
theorem C5_counterexample :
    (plot_mohrs_circle 1000 (-200) 200).theta_p_deg < 5 ∧
    ¬ |(plot_mohrs_circle 1000 (-200) 200).theta_p_deg - 9.46| ≤ 0.5 := by
  have hT : (plot_mohrs_circle 1000 (-200) 200).theta_p_deg =
      degrees (0.5 * arctan2 200 1200) := by
    rw [plot_theta]
    norm_num
  obtain ⟨hb1, hb2⟩ := theta_textbook_bounds
  rw [hT]
  constructor
  · exact hb2
  · rw [abs_le]
    intro ⟨hlo, hhi⟩
    linarith

/-- The textbook system: the 0°/45°/90° matrix applied to the state
(1000, −200, 200) yields the measured strains (1000, 500, −200). -/
lemma textbook_mulVec :
    rosetteMatrix 0 45 90 *ᵥ ![1000, -200, 200] =
      ![(1000 : ℝ), 500, -200] := by
  rw [rosetteMatrix_0_45_90]
  funext i
  fin_cases i <;>
    norm_num [Matrix.mulVec, Matrix.dotProduct, Fin.sum_univ_three]

/-- C5 amended: for angles 0°,45°,90° and strains 1000, 500, −200 the solver
returns (1000, −200, 200); the analysis gives center 400, radius
√370000 ≈ 608.28, eps1 = 400 + √370000 ≈ 1008.28, eps2 = 400 − √370000 ≈
−208.28, and theta_p_deg = degrees(0.5·atan2(200, 1200)) ≈ 4.73°
(not 9.46°), here pinned between 0° and 5°. -/
theorem C5_textbook_amended :
    calculate_strains 0 45 90 1000 500 (-200) = some ![1000, -200, 200] ∧
    (plot_mohrs_circle 1000 (-200) 200).center = 400 ∧
    (plot_mohrs_circle 1000 (-200) 200).radius = Real.sqrt 370000 ∧
    |(plot_mohrs_circle 1000 (-200) 200).radius - 608.28| < 0.01 ∧
    (plot_mohrs_circle 1000 (-200) 200).eps1 = 400 + Real.sqrt 370000 ∧
    (plot_mohrs_circle 1000 (-200) 200).eps2 = 400 - Real.sqrt 370000 ∧
    (plot_mohrs_circle 1000 (-200) 200).theta_p_deg =
      degrees (0.5 * arctan2 200 1200) ∧
    0 < (plot_mohrs_circle 1000 (-200) 200).theta_p_deg ∧
    (plot_mohrs_circle 1000 (-200) 200).theta_p_deg < 5 := by
  have hrad : (plot_mohrs_circle 1000 (-200) 200).radius =
      Real.sqrt 370000 := by
    rw [plot_radius]
    norm_num
  have hlo : (608.27 : ℝ) < Real.sqrt 370000 := by
    rw [show (608.27 : ℝ) = |608.27| by rw [abs_of_nonneg]; norm_num]
    apply Real.lt_sqrt_of_sq_lt
    norm_num
  have hhi : Real.sqrt 370000 < 608.29 := by
    rw [Real.sqrt_lt' (by norm_num : (0 : ℝ) < 608.29)]
    norm_num
  have hT : (plot_mohrs_circle 1000 (-200) 200).theta_p_deg =
      degrees (0.5 * arctan2 200 1200) := by
    rw [plot_theta]
    norm_num
  obtain ⟨hb1, hb2⟩ := theta_textbook_bounds
  refine ⟨?_, ?_, hrad, ?_, ?_, ?_, hT, ?_, ?_⟩
  · exact calculate_strains_unique 0 45 90 1000 500 (-200) ![1000, -200, 200]
      (by rw [det_rosette_0_45_90]; norm_num) textbook_mulVec
  · rw [plot_center]
    norm_num
  · rw [hrad, abs_lt]
    constructor <;> linarith
  · rw [plot_eps1]
    norm_num
  · rw [plot_eps2]
    norm_num
  · rw [hT]
    exact hb1
  · rw [hT]
    exact hb2

/-- C10: both endpoints of the plotted diametral segment lie exactly on the
plotted circle: their distance to the circle center equals the radius. -/
theorem C10_diametral_segment (ex ey g : ℝ) :
    planarDist (mohr_plot ex ey g).segStart (mohr_plot ex ey g).circleCenter =
      (mohr_plot ex ey g).circleRadius ∧
    planarDist (mohr_plot ex ey g).segEnd (mohr_plot ex ey g).circleCenter =
      (mohr_plot ex ey g).circleRadius := by
  constructor
  · show Real.sqrt ((ex - (ex + ey) / 2) ^ 2 + (-g / 2 - 0) ^ 2) =
      Real.sqrt (((ex - ey) / 2) ^ 2 + (g / 2) ^ 2)
    congr 1
    ring
  · show Real.sqrt ((ey - (ex + ey) / 2) ^ 2 + (g / 2 - 0) ^ 2) =
      Real.sqrt (((ex - ey) / 2) ^ 2 + (g / 2) ^ 2)
    congr 1
    ring

/-- C2: for every strain state, `plot_mohrs_circle` returns exactly
center = (eps_x+eps_y)/2, radius = sqrt(((eps_x−eps_y)/2)² + (γ/2)²),
eps1 = center + radius, eps2 = center − radius, and
theta_p_deg = degrees(0.5·atan2(γ, eps_x−eps_y)), in closed form. -/
theorem C2_analyze_closed_form (ex ey g : ℝ) :
    (plot_mohrs_circle ex ey g).center = (ex + ey) / 2 ∧
    (plot_mohrs_circle ex ey g).radius =
      Real.sqrt (((ex - ey) / 2) ^ 2 + (g / 2) ^ 2) ∧
    (plot_mohrs_circle ex ey g).eps1 =
      (ex + ey) / 2 + Real.sqrt (((ex - ey) / 2) ^ 2 + (g / 2) ^ 2) ∧
    (plot_mohrs_circle ex ey g).eps2 =
      (ex + ey) / 2 - Real.sqrt (((ex - ey) / 2) ^ 2 + (g / 2) ^ 2) ∧
    (plot_mohrs_circle ex ey g).theta_p_deg =
      degrees (0.5 * arctan2 g (ex - ey)) := by
  refine ⟨rfl, rfl, rfl, rfl, rfl⟩

/-- C8: the isotropic state eps_x = eps_y = 100, γ = 0 yields center 100,
radius 0, eps1 = eps2 = 100, and theta_p_deg = 0 (since atan2(0,0) = 0). -/
theorem C8_isotropic :
    (plot_mohrs_circle 100 100 0).center = 100 ∧
    (plot_mohrs_circle 100 100 0).radius = 0 ∧
    (plot_mohrs_circle 100 100 0).eps1 = 100 ∧
    (plot_mohrs_circle 100 100 0).eps2 = 100 ∧
    (plot_mohrs_circle 100 100 0).theta_p_deg = 0 := by
  have hr : Real.sqrt (((100 - 100 : ℝ) / 2) ^ 2 + ((0 : ℝ) / 2) ^ 2) = 0 := by
    norm_num
  have ha : arctan2 0 0 = 0 := by
    simp [arctan2]
  refine ⟨by norm_num [plot_mohrs_circle], ?_, ?_, ?_, ?_⟩
  · simp [plot_mohrs_circle, hr]
  · simp [plot_mohrs_circle, hr]
  · simp [plot_mohrs_circle, hr]
  · simp [plot_mohrs_circle, degrees, ha]
